import Mathlib

/-!
Verification development for the go-logfmt/logfmt codec.

The Go sources are embedded shallowly:

* bytes are `Nat` values (the byte's numeric value); byte strings are `List Nat`;
* the encoder's output sink is pure, so a write operation is modelled by the
  list of bytes it appends; sink (I/O) failures are not modelled;
* the decoder's `bufio.Scanner` input is modelled as the list of lines it
  would yield (newline splitting already performed), so stream (I/O) faults
  other than end of input do not arise in the model;
* Go's `interface{}` keys and values are modelled by small inductive types
  whose constructors correspond to the dynamic-dispatch branches of
  `writeKey`/`writeValue` (string, TextMarshaler result, Stringer result,
  nil pointer, composite kind, fmt.Sprint fallback).

Character-class checks (`invalidKeyRune`, `needsQuotedValueRune`) are applied
by the Go code to the runes of a UTF-8 string via `strings.IndexFunc`.  All
bytes ≤ 0x20 as well as `=` (0x3D) and `"` (0x22) decode as single-byte runes
equal to their byte value, while every multi-byte or invalid sequence decodes
to runes > 0x20 that are neither `=` nor `"` (overlong forms and invalid bytes
decode to U+FFFD).  Hence the rune-level scan succeeds iff some single byte is
≤ 0x20 or equals `=` or `"`, and the embedding performs the check per byte.
-/

namespace Logfmt

/-- Byte strings are lists of byte values. -/
abbrev Bytes := List Nat

/-! ### Lexical escape/unescape helper

The repository file holding `writeQuotedBytes`/`writeQuotedString` and
`unquoteBytes` (jsonstring.go) is not under src/ — only their callers in
logfmt.go and decode.go are.  The definitions below are therefore modelled
from the spec (§4.2 "Lexical escape/unescape helper").
-/

/-- Lowercase hex digit for a nibble. -/
def hexDigit (n : Nat) : Nat := if n < 10 then 48 + n else 87 + n

/-- Value of a hex digit byte (accepts `0-9`, `a-f`, `A-F`). -/
def hexVal (c : Nat) : Option Nat :=
  if 48 ≤ c ∧ c ≤ 57 then some (c - 48)
  else if 97 ≤ c ∧ c ≤ 102 then some (c - 87)
  else if 65 ≤ c ∧ c ≤ 70 then some (c - 55)
  else none

/-- Value of four hex digit bytes. -/
def hex4 (a b c d : Nat) : Option Nat :=
  match hexVal a, hexVal b, hexVal c, hexVal d with
  | some x, some y, some z, some w => some (x * 4096 + y * 256 + z * 16 + w)
  | _, _, _, _ => none

/-- UTF-8 encoding of a code point. -/
def utf8Encode (n : Nat) : Bytes :=
  if n < 128 then [n]
  else if n < 2048 then [192 + n / 64, 128 + n % 64]
  else if n < 65536 then [224 + n / 4096, 128 + (n / 64) % 64, 128 + n % 64]
  else [240 + n / 262144, 128 + (n / 4096) % 64, 128 + (n / 64) % 64, 128 + n % 64]

/-- Modelled from the spec: §4.2 `unescape`, the body of the Decoder's quoted
content reader (`unquoteBytes` of the missing jsonstring.go).  Interprets the
backslash escapes `\"  \\  \/  \b  \f  \n  \r  \t  \uXXXX` (four hex digits,
with surrogate-pair combination); fails on an unknown escape letter, a
truncated `\u`, invalid hex, or an unpaired high/low surrogate.  The `fuel`
argument only drives the structural recursion; every step consumes at least
one input byte, so `fuel ≥ length of the input` makes it irrelevant. -/
def unescEsc : Bytes → Option (Bytes × Bytes)
  | [] => none
  | e :: t =>
    if e = 34 then some ([34], t)
    else if e = 92 then some ([92], t)
    else if e = 47 then some ([47], t)
    else if e = 98 then some ([8], t)
    else if e = 102 then some ([12], t)
    else if e = 110 then some ([10], t)
    else if e = 114 then some ([13], t)
    else if e = 116 then some ([9], t)
    else if e = 117 then
      match t with
      | h1 :: h2 :: h3 :: h4 :: t1 =>
        match hex4 h1 h2 h3 h4 with
        | none => none
        | some n =>
          if 55296 ≤ n ∧ n < 56320 then
            match t1 with
            | c1 :: c2 :: g1 :: g2 :: g3 :: g4 :: t2 =>
              if c1 = 92 ∧ c2 = 117 then
                match hex4 g1 g2 g3 g4 with
                | none => none
                | some m =>
                  if 56320 ≤ m ∧ m < 57344 then
                    some (utf8Encode (65536 + (n - 55296) * 1024 + (m - 56320)), t2)
                  else none
              else none
            | _ => none
          else if 56320 ≤ n ∧ n < 57344 then none
          else some (utf8Encode n, t1)
      | _ => none
    else none

/-- Main unescape loop: a backslash hands the rest of the input to `unescEsc`,
any other byte passes through. -/
def unescapeBodyF : Nat → Bytes → Option Bytes
  | _, [] => some []
  | 0, _ :: _ => none
  | fuel + 1, b :: rest =>
    if b = 92 then
      match unescEsc rest with
      | none => none
      | some (out, t) => (unescapeBodyF fuel t).map (out ++ ·)
    else (unescapeBodyF fuel rest).map (b :: ·)

/-- Quoted-content unescaping, with sufficient fuel supplied. -/
def unescapeBody (s : Bytes) : Option Bytes := unescapeBodyF s.length s

/-- Modelled from the spec: §4.2 — `unquoteBytes` of the missing jsonstring.go
receives the raw quoted span including both `"` delimiters (as passed by
`ScanKeyval`) and unescapes the content between them. -/
def unquoteBytes (s : Bytes) : Option Bytes :=
  if 2 ≤ s.length ∧ s.head? = some 34 ∧ s.getLast? = some 34 then
    unescapeBody ((s.drop 1).dropLast)
  else none

/-- Modelled from the spec: §4.2 `escape`, the treatment of a single-byte
(ASCII) rune by the escaping of the missing jsonstring.go: `"` and `\` are
backslash-escaped, newline/carriage-return/tab use their letter escapes,
other control bytes use `\u00XX`, and the remaining ASCII bytes pass
through. -/
def escByte (b : Nat) : Bytes :=
  if b = 34 then [92, 34]
  else if b = 92 then [92, 92]
  else if b = 10 then [92, 110]
  else if b = 13 then [92, 114]
  else if b = 9 then [92, 116]
  else if b < 32 then [92, 117, 48, 48, hexDigit (b / 16), hexDigit (b % 16)]
  else [b]

/-- Continuation-byte test of UTF-8. -/
def utf8Cont (c : Nat) : Bool := 128 ≤ c && c ≤ 191

/-- Leading byte `b` followed by `t` starts a valid multi-byte UTF-8
sequence: returns the number of continuation bytes (1, 2 or 3), or `none`
when `b :: t` does not begin valid multi-byte text.  The ranges are the
accept ranges of UTF-8 decoding: overlong forms, surrogate code points and
values above U+10FFFF are rejected (their lead/continuation ranges are
excluded), matching what a text decoder treats as invalid encoding.
`mb3Ok` is the first-continuation-byte test for a three-byte sequence led
by `b`. -/
def mb3Ok (b c1 : Nat) : Bool :=
  if b = 224 then decide (160 ≤ c1 ∧ c1 ≤ 191)
  else if b = 237 then decide (128 ≤ c1 ∧ c1 ≤ 159)
  else utf8Cont c1

/-- First-continuation-byte test for a four-byte sequence led by `b`. -/
def mb4Ok (b c1 : Nat) : Bool :=
  if b = 240 then decide (144 ≤ c1 ∧ c1 ≤ 191)
  else if b = 244 then decide (128 ≤ c1 ∧ c1 ≤ 143)
  else utf8Cont c1

/-- Number of continuation bytes when `b :: t` starts a valid multi-byte
sequence. -/
def decodeMb (b : Nat) (t : Bytes) : Option Nat :=
  if 194 ≤ b ∧ b ≤ 223 then
    match t with
    | c1 :: _ => if utf8Cont c1 then some 1 else none
    | [] => none
  else if 224 ≤ b ∧ b ≤ 239 then
    match t with
    | c1 :: c2 :: _ => if mb3Ok b c1 && utf8Cont c2 then some 2 else none
    | _ => none
  else if 240 ≤ b ∧ b ≤ 244 then
    match t with
    | c1 :: c2 :: c3 :: _ =>
      if mb4Ok b c1 && utf8Cont c2 && utf8Cont c3 then some 3 else none
    | _ => none
  else none

/-- The escape sequence `\ufffd` (the replacement character), emitted for a
byte that does not belong to valid text. -/
def replEsc : Bytes := [92, 117, 102, 102, 102, 100]

/-- Modelled from the spec: §4.2 `escape` over a whole byte string — ASCII
runes are handled by `escByte`, the bytes of a valid multi-byte sequence
pass through, and a byte that does not form valid text is escaped as the
replacement character rather than passed through, so the output stream
stays valid text.  The `fuel` argument only drives the structural
recursion; every step consumes at least one input byte, so
`fuel ≥ length of the input` makes it irrelevant. -/
def escBodyF : Nat → Bytes → Bytes
  | _, [] => []
  | 0, _ :: _ => []
  | fuel + 1, b :: t =>
    if b < 128 then escByte b ++ escBodyF fuel t
    else
      match decodeMb b t with
      | some n => (b :: t.take n) ++ escBodyF fuel (t.drop n)
      | none => replEsc ++ escBodyF fuel t

/-- Escaping of a whole byte string, with sufficient fuel supplied. -/
def escBody (v : Bytes) : Bytes := escBodyF v.length v

/-- A byte string forms valid text: it decomposes into ASCII bytes and
valid multi-byte UTF-8 sequences.  Mirrors the decomposition `escBodyF`
performs, with the same fuel convention. -/
def validUtf8F : Nat → Bytes → Bool
  | _, [] => true
  | 0, _ :: _ => false
  | fuel + 1, b :: t =>
    if b < 128 then validUtf8F fuel t
    else
      match decodeMb b t with
      | some n => validUtf8F fuel (t.drop n)
      | none => false

/-- Validity of a whole byte string as text, with sufficient fuel supplied. -/
def validUtf8 (v : Bytes) : Bool := validUtf8F v.length v

/-- Modelled from the spec: §4.2 — `writeQuotedBytes` of the missing
jsonstring.go emits the opening quote, the escaped content and the closing
quote. -/
def writeQuotedBytes (v : Bytes) : Bytes := 34 :: escBody v ++ [34]

/-- Interpreting the escape sequence produced for one byte yields that byte
back, plus the untouched remainder of the input. -/
theorem unescEsc_escByte (b : Nat) (t : Bytes) :
    ∃ u : Bytes, escByte b ++ t = 92 :: u ∧ unescEsc u = some ([b], t) ∨
      escByte b ++ t = b :: t ∧ b ≠ 92 := by
  by_cases h34 : b = 34
  · exact ⟨34 :: t, Or.inl ⟨by simp [escByte, h34], by simp [unescEsc, h34]⟩⟩
  by_cases h92 : b = 92
  · exact ⟨92 :: t, Or.inl ⟨by simp [escByte, h34, h92], by simp [unescEsc, h92]⟩⟩
  by_cases h10 : b = 10
  · exact ⟨110 :: t, Or.inl ⟨by simp [escByte, h34, h92, h10], by simp [unescEsc, h10]⟩⟩
  by_cases h13 : b = 13
  · exact ⟨114 :: t, Or.inl ⟨by simp [escByte, h34, h92, h10, h13], by simp [unescEsc, h13]⟩⟩
  by_cases h9 : b = 9
  · exact ⟨116 :: t, Or.inl ⟨by simp [escByte, h34, h92, h10, h13, h9], by simp [unescEsc, h9]⟩⟩
  by_cases hc : b < 32
  · refine ⟨117 :: 48 :: 48 :: hexDigit (b / 16) :: hexDigit (b % 16) :: t, Or.inl ⟨?_, ?_⟩⟩
    · simp [escByte, h34, h92, h10, h13, h9, hc]
    · have hlt : b / 16 < 16 := by omega
      have hmod : b % 16 < 16 := Nat.mod_lt _ (by omega)
      have hdig : ∀ n < 16, hexVal (hexDigit n) = some n := by decide
      have hhex : hex4 48 48 (hexDigit (b / 16)) (hexDigit (b % 16)) = some b := by
        simp only [hex4, show hexVal 48 = some 0 from rfl, hdig _ hlt, hdig _ hmod]
        exact congrArg some (by omega)
      have hu8 : utf8Encode b = [b] := by
        simp [utf8Encode, show b < 128 by omega]
      simp only [unescEsc, if_neg (by decide : ¬(117 = 34)),
        if_neg (by decide : ¬(117 = 92)), if_neg (by decide : ¬(117 = 47)),
        if_neg (by decide : ¬(117 = 98)), if_neg (by decide : ¬(117 = 102)),
        if_neg (by decide : ¬(117 = 110)), if_neg (by decide : ¬(117 = 114)),
        if_neg (by decide : ¬(117 = 116)), if_pos rfl, hhex]
      have hns : ¬(55296 ≤ b ∧ b < 56320) := by omega
      have hns2 : ¬(56320 ≤ b ∧ b < 57344) := by omega
      simp [hns, hns2, hu8]
  · refine ⟨t, Or.inr ⟨?_, h92⟩⟩
    simp [escByte, h34, h92, h10, h13, h9, hc]

/-- Unescaping inverts per-byte escaping: each escaped byte consumes exactly
one unit of fuel. -/
theorem unescapeBodyF_escByte (fuel b : Nat) (t : Bytes) :
    unescapeBodyF (fuel + 1) (escByte b ++ t) = (unescapeBodyF fuel t).map (b :: ·) := by
  obtain ⟨u, h⟩ := unescEsc_escByte b t
  rcases h with ⟨heq, hesc⟩ | ⟨heq, hne⟩
  · rw [heq]
    simp only [unescapeBodyF, if_pos rfl, hesc]
    cases unescapeBodyF fuel t <;> simp
  · rw [heq]
    simp only [unescapeBodyF, if_neg hne]

/-- A byte that is not a backslash passes through unescaping untouched. -/
theorem unescapeBodyF_pass (fuel b : Nat) (rest : Bytes) (hb : ¬b = 92) :
    unescapeBodyF (fuel + 1) (b :: rest) = (unescapeBodyF fuel rest).map (b :: ·) := by
  rw [unescapeBodyF, if_neg hb]

/-- A backslash-free prefix passes through unescaping untouched, consuming
one unit of fuel per byte. -/
theorem unescapeBodyF_pass_list (seq : Bytes) :
    ∀ (rest : Bytes) (fuel : Nat), (∀ c ∈ seq, ¬c = 92) →
      unescapeBodyF (seq.length + fuel) (seq ++ rest) =
        (unescapeBodyF fuel rest).map (seq ++ ·) := by
  induction seq with
  | nil =>
    intro rest fuel _
    simp only [List.length_nil, Nat.zero_add, List.nil_append]
    cases unescapeBodyF fuel rest <;> simp
  | cons c s ih =>
    intro rest fuel h
    rw [show (c :: s).length + fuel = (s.length + fuel) + 1 from by
      simp only [List.length_cons]; omega]
    rw [List.cons_append, unescapeBodyF_pass _ _ _ (h c (List.mem_cons_self c s))]
    rw [ih rest fuel (fun d hd => h d (List.mem_cons_of_mem c hd))]
    cases unescapeBodyF fuel rest <;> simp

/-- The bytes a successful `decodeMb` consumes are all ≥ 128, so none of
them is a backslash. -/
theorem decodeMb_nc (b : Nat) (t : Bytes) (n : Nat) (h : decodeMb b t = some n) :
    ∀ c ∈ b :: t.take n, ¬c = 92 := by
  have hmb3 : ∀ x y : Nat, mb3Ok x y = true → 128 ≤ y := by
    intro x y hxy
    unfold mb3Ok at hxy
    split_ifs at hxy <;> simp only [utf8Cont, Bool.and_eq_true, decide_eq_true_eq] at hxy <;>
      omega
  have hmb4 : ∀ x y : Nat, mb4Ok x y = true → 128 ≤ y := by
    intro x y hxy
    unfold mb4Ok at hxy
    split_ifs at hxy <;> simp only [utf8Cont, Bool.and_eq_true, decide_eq_true_eq] at hxy <;>
      omega
  have hcont : ∀ y : Nat, utf8Cont y = true → 128 ≤ y := by
    intro y hy
    simp only [utf8Cont, Bool.and_eq_true, decide_eq_true_eq] at hy
    omega
  unfold decodeMb at h
  by_cases hb1 : 194 ≤ b ∧ b ≤ 223
  · rw [if_pos hb1] at h
    cases t with
    | nil => simp at h
    | cons c1 t1 =>
      dsimp only at h
      split_ifs at h with hc
      obtain rfl : (1 : Nat) = n := by injection h
      have hr1 := hcont c1 hc
      intro c hmem
      simp only [List.take_succ_cons, List.take_zero] at hmem
      simp only [List.mem_cons, List.not_mem_nil, or_false] at hmem
      rcases hmem with rfl | rfl <;> omega
  · rw [if_neg hb1] at h
    by_cases hb2 : 224 ≤ b ∧ b ≤ 239
    · rw [if_pos hb2] at h
      match t, h with
      | [], h => simp at h
      | [c1], h => simp at h
      | c1 :: c2 :: t2, h =>
        dsimp only at h
        split_ifs at h with hc
        obtain rfl : (2 : Nat) = n := by injection h
        simp only [Bool.and_eq_true] at hc
        have hr1 := hmb3 b c1 hc.1
        have hr2 := hcont c2 hc.2
        intro c hmem
        simp only [List.take_succ_cons, List.take_zero] at hmem
        simp only [List.mem_cons, List.not_mem_nil, or_false] at hmem
        rcases hmem with rfl | rfl | rfl <;> omega
    · rw [if_neg hb2] at h
      by_cases hb3 : 240 ≤ b ∧ b ≤ 244
      · rw [if_pos hb3] at h
        match t, h with
        | [], h => simp at h
        | [c1], h => simp at h
        | [c1, c2], h => simp at h
        | c1 :: c2 :: c3 :: t3, h =>
          dsimp only at h
          split_ifs at h with hc
          obtain rfl : (3 : Nat) = n := by injection h
          simp only [Bool.and_eq_true] at hc
          have hr1 := hmb4 b c1 hc.1.1
          have hr2 := hcont c2 hc.1.2
          have hr3 := hcont c3 hc.2
          intro c hmem
          simp only [List.take_succ_cons, List.take_zero] at hmem
          simp only [List.mem_cons, List.not_mem_nil, or_false] at hmem
          rcases hmem with rfl | rfl | rfl | rfl <;> omega
      · rw [if_neg hb3] at h
        simp at h

/-- Unescaping inverts escaping for every byte string that forms valid
text, for any surplus fuel. -/
theorem unescapeBodyF_escBodyF :
    ∀ fuel (v : Bytes) (k : Nat), v.length ≤ fuel → validUtf8F fuel v = true →
      unescapeBodyF ((escBodyF fuel v).length + k) (escBodyF fuel v) = some v := by
  intro fuel
  induction fuel with
  | zero =>
    intro v k h1 _
    match v, h1 with
    | [], _ => cases k <;> rfl
    | b :: t, h1 => simp at h1
  | succ fuel ih =>
    intro v k h1 h2
    match v with
    | [] => cases k <;> rfl
    | b :: t =>
      rw [validUtf8F] at h2
      rw [escBodyF]
      by_cases hb : b < 128
      · rw [if_pos hb] at h2 ⊢
        have hbl : 1 ≤ (escByte b).length := by
          unfold escByte
          split_ifs <;> simp
        obtain ⟨m, hm⟩ : ∃ m, (escByte b).length = m + 1 :=
          ⟨(escByte b).length - 1, by omega⟩
        rw [show (escByte b ++ escBodyF fuel t).length + k
            = ((escBodyF fuel t).length + (m + k)) + 1 from by
          simp only [List.length_append, hm]; omega]
        rw [unescapeBodyF_escByte]
        rw [ih t (m + k) (by simp only [List.length_cons] at h1; omega) h2]
        rfl
      · rw [if_neg hb] at h2 ⊢
        cases hmb : decodeMb b t with
        | none =>
          rw [hmb] at h2
          simp at h2
        | some n =>
          rw [hmb] at h2
          dsimp only at h2 ⊢
          rw [show ((b :: t.take n) ++ escBodyF fuel (t.drop n)).length + k
              = (b :: t.take n).length + ((escBodyF fuel (t.drop n)).length + k) from by
            simp only [List.length_append]; omega]
          rw [unescapeBodyF_pass_list _ _ _ (decodeMb_nc b t n hmb)]
          rw [ih (t.drop n) k
                (by
                  have := List.length_drop n t
                  simp only [List.length_cons] at h1
                  omega)
                h2]
          simp

/-! ### Encoder (src/logfmt.go)

The dynamic dispatch of `writeKey`/`writeValue` over `interface{}` is
embedded by inductive types whose constructors carry the data each branch
inspects.  The TextMarshaler branch carries the result of `safeMarshal`
(an error, or the marshalled bytes where `none` stands for a nil `[]byte`,
which `safeMarshal` returns for a nil pointer receiver); the Stringer branch
carries the result of `safeString` (the string and the ok flag, which is
`false` exactly for a nil pointer receiver).  A write to the sink is
modelled by the list of bytes written; sink failures are not modelled, so
the error component of each writer is `none` on the success paths. -/

/-- Errors of the Marshal functions and Encoder methods (`ErrNilKey`,
`ErrInvalidKey`, `ErrUnsportedType` of src/logfmt.go), plus the propagated
error of a failing `MarshalText` call. -/
inductive EncErr where
  | nilKey
  | invalidKey
  | unsupportedType
  | marshalError
deriving DecidableEq

/-- Result of `safeMarshal` (src/logfmt.go lines 238-250): a propagated
`MarshalText` error, or the marshalled bytes, where `ok none` stands for a
nil `[]byte` (what a nil pointer receiver produces). -/
inductive MarshalRes where
  | fail
  | ok (b : Option Bytes)
deriving DecidableEq

/-- Keys, by dispatch branch of `writeKey` (src/logfmt.go lines 94-129). -/
inductive GoKey where
  | knil
  | kstr (s : Bytes)
  | kmarshaler (res : MarshalRes)
  | kstringer (s : Bytes) (ok : Bool)
  | kptrNil
  | kcomposite
  | kother (s : Bytes)
deriving DecidableEq

/-- Values, by dispatch branch of `writeValue` (src/logfmt.go lines 151-181). -/
inductive GoValue where
  | vnil
  | vstr (s : Bytes)
  | vmarshaler (res : MarshalRes)
  | vstringer (s : Bytes) (ok : Bool)
  | vptrNil
  | vcomposite
  | vother (s : Bytes)
deriving DecidableEq

/-- The bytes of `nilbytes = []byte("null")` (src/logfmt.go line 60). -/
def nilbytes : Bytes := [110, 117, 108, 108]

/-- The rune predicate `invalidKeyRune` (src/logfmt.go lines 131-133),
applied per byte (see the UTF-8 note at the top of the file). -/
def invalidKeyRune (r : Nat) : Bool := r ≤ 32 || r == 61 || r == 34

/-- The rune predicate `needsQuotedValueRune` (src/logfmt.go lines 183-185),
applied per byte. -/
def needsQuotedValueRune (r : Nat) : Bool := r ≤ 32 || r == 61 || r == 34

/-- The `writeStringKey` method (src/logfmt.go lines 135-141): validate,
then write the key verbatim. -/
def writeStringKey (key : Bytes) : Option EncErr × Bytes :=
  if key.length = 0 || key.any invalidKeyRune then (some .invalidKey, [])
  else (none, key)

/-- The `writeBytesKey` method (src/logfmt.go lines 143-149). -/
def writeBytesKey (key : Bytes) : Option EncErr × Bytes :=
  if key.length = 0 || key.any invalidKeyRune then (some .invalidKey, [])
  else (none, key)

/-- The `writeKey` method (src/logfmt.go lines 94-129). -/
def writeKey : GoKey → Option EncErr × Bytes
  | .knil => (some .nilKey, [])
  | .kstr s => writeStringKey s
  | .kmarshaler .fail => (some .marshalError, [])
  | .kmarshaler (.ok none) => (some .nilKey, [])
  | .kmarshaler (.ok (some kb)) => writeBytesKey kb
  | .kstringer s ok => if ok then writeStringKey s else (some .nilKey, [])
  | .kcomposite => (some .unsupportedType, [])
  | .kptrNil => (some .nilKey, [])
  | .kother s => writeStringKey s

/-- The `writeStringValue` method (src/logfmt.go lines 187-197): the literal
`"null"` is emitted for the exact string `null` when `ok` holds, values
containing a byte that needs quoting are escaped, anything else is written
verbatim. -/
def writeStringValue (value : Bytes) (ok : Bool) : Option EncErr × Bytes :=
  if ok && value = nilbytes then (none, [34, 110, 117, 108, 108, 34])
  else if value.any needsQuotedValueRune then (none, writeQuotedBytes value)
  else (none, value)

/-- The `writeBytesValue` method (src/logfmt.go lines 199-207). -/
def writeBytesValue (value : Bytes) : Option EncErr × Bytes :=
  if value.any needsQuotedValueRune then (none, writeQuotedBytes value)
  else (none, value)

/-- The `writeValue` method (src/logfmt.go lines 151-181). -/
def writeValue : GoValue → Option EncErr × Bytes
  | .vnil => writeBytesValue nilbytes
  | .vstr s => writeStringValue s true
  | .vmarshaler .fail => (some .marshalError, [])
  | .vmarshaler (.ok none) => writeBytesValue nilbytes
  | .vmarshaler (.ok (some vb)) => writeBytesValue vb
  | .vstringer s ok => writeStringValue s ok
  | .vcomposite => (some .unsupportedType, [])
  | .vptrNil => writeBytesValue nilbytes
  | .vother s => writeStringValue s true

/-- The `EncodeKeyval` method (src/logfmt.go lines 77-92).  Takes the
`needSep` flag of the Encoder and returns the error, the bytes written to
the sink, and the updated flag.  The separator space is written before the
key is validated, and `needSep` becomes true even when encoding fails. -/
def encodeKeyval (needSep : Bool) (key : GoKey) (value : GoValue) :
    Option EncErr × Bytes × Bool :=
  let sepOut : Bytes := if needSep then [32] else []
  match writeKey key with
  | (some e, kOut) => (some e, sepOut ++ kOut, true)
  | (none, kOut) =>
    match writeValue value with
    | (some e, vOut) => (some e, sepOut ++ kOut ++ [61] ++ vOut, true)
    | (none, vOut) => (none, sepOut ++ kOut ++ [61] ++ vOut, true)

/-! ### Decoder (second revision in src/decode.go, lines 269-503)

`ScanKeyval` is a single function whose `goto` labels (`garbage`, `key`,
`equal`, `ivalue`, `qvalue`, `qvalueEsc`) become one Lean function each.
`dec.skip()` (increment `pos`, report whether it is still inside the line)
is inlined at each use.  The loops walk `pos` strictly upward and stop at
the end of the line, so running each label's loop with `line.length + 1`
fuel is exact; the fuel only drives the structural recursion. -/

/-- The `SyntaxError` type (src/decode.go lines 495-499): message, 1-based
line and 1-based column of the offending byte. -/
structure SynErr where
  msg : String
  line : Nat
  pos : Nat
deriving DecidableEq

/-- Decoder state (src/decode.go lines 283-292).  `lines` models the
remaining lines the `bufio.Scanner` will yield (newline splitting already
performed); the pure model has no stream faults, so `s.Err()` is nil. -/
structure Decoder where
  lines : List Bytes
  line : Bytes
  key : Option Bytes
  value : Option Bytes
  lineNum : Nat
  pos : Nat
  start : Nat
  err : Option SynErr
deriving DecidableEq

/-- The `NewDecoder` constructor (src/decode.go lines 298-303). -/
def newDecoder (ls : List Bytes) : Decoder :=
  { lines := ls, line := [], key := none, value := none,
    lineNum := 0, pos := 0, start := 0, err := none }

/-- A decoder positioned at the beginning of its first line, as produced by
`ScanRecord` on a one-line input. -/
def lineDecoder (l : Bytes) : Decoder :=
  { lines := [], line := l, key := none, value := none,
    lineNum := 1, pos := 0, start := 0, err := none }

/-- The `peek` method (src/decode.go lines 456-458); the scanner maintains
`pos < line.length` at every call, so the default is never read. -/
def peek (dec : Decoder) : Nat := dec.line.getD dec.pos 0

/-- The `token` method (src/decode.go lines 460-465): the span
`line[start:end]`, nil when empty. -/
def tokenOf (dec : Decoder) (e : Nat) : Option Bytes :=
  if dec.start = e then none else some ((dec.line.drop dec.start).take (e - dec.start))

/-- Rendering of a byte by Go's `%q` verb, for the printable bytes the
scanner reports (`=` and `"`). -/
def quoteChar (c : Nat) : String := "'" ++ String.mk [Char.ofNat c] ++ "'"

/-- The `unexpectedByte` method (src/decode.go lines 487-493): record a
positioned sticky error. -/
def unexpectedByte (dec : Decoder) (c : Nat) : Decoder :=
  { dec with err := some { msg := "unexpected " ++ quoteChar c,
                           line := dec.lineNum, pos := dec.pos + 1 } }

/-- The `syntaxError` method (src/decode.go lines 479-485). -/
def synErrAt (dec : Decoder) (msg : String) : Decoder :=
  { dec with err := some { msg := msg, line := dec.lineNum, pos := dec.pos + 1 } }

/-- The `ScanRecord` method (src/decode.go lines 311-323): refuse to advance
while any sticky error is set; otherwise load the next line, bump the line
number and reset the position. -/
def scanRecord (dec : Decoder) : Bool × Decoder :=
  if dec.err.isSome then (false, dec)
  else
    match dec.lines with
    | [] => (false, dec)
    | l :: rest =>
      (true, { dec with lines := rest, line := l, lineNum := dec.lineNum + 1, pos := 0 })

/-- The `qvalueEsc` label of `ScanKeyval` (src/decode.go lines 415-438). -/
def skQvalueEscF : Nat → Bool → Decoder → Bool × Decoder
  | 0, _, dec => (false, dec)
  | fuel + 1, esc, dec =>
    let c := peek dec
    if esc then
      let dec' := { dec with pos := dec.pos + 1 }
      if dec'.line.length ≤ dec'.pos then (false, synErrAt dec' "unterminated quoted value")
      else skQvalueEscF fuel false dec'
    else if c = 92 then
      let dec' := { dec with pos := dec.pos + 1 }
      if dec'.line.length ≤ dec'.pos then (false, synErrAt dec' "unterminated quoted value")
      else skQvalueEscF fuel true dec'
    else if c = 34 then
      let dec' := { dec with pos := dec.pos + 1 }
      match unquoteBytes ((tokenOf dec' dec'.pos).getD []) with
      | none => (false, synErrAt dec' "invalid quoted value")
      | some v => (true, { dec' with value := some v })
    else
      let dec' := { dec with pos := dec.pos + 1 }
      if dec'.line.length ≤ dec'.pos then (false, synErrAt dec' "unterminated quoted value")
      else skQvalueEscF fuel false dec'

/-- Entry to the `qvalueEsc` label: `var esc bool` starts out false. -/
def skQvalueEsc (dec : Decoder) : Bool × Decoder :=
  skQvalueEscF (dec.line.length + 1) false dec

/-- The `qvalue` label of `ScanKeyval` (src/decode.go lines 396-413),
after `dec.start = dec.pos` has been recorded at the opening quote. -/
def skQvalueF : Nat → Decoder → Bool × Decoder
  | 0, dec => (false, dec)
  | fuel + 1, dec =>
    let dec' := { dec with pos := dec.pos + 1 }
    if dec'.line.length ≤ dec'.pos then (false, synErrAt dec' "unterminated quoted value")
    else
      let c := peek dec'
      if c = 92 then skQvalueEsc dec'
      else if c = 34 then
        let dec2 := { dec' with start := dec'.start + 1 }
        let dec3 := { dec2 with value := tokenOf dec2 dec2.pos }
        (true, { dec3 with pos := dec3.pos + 1 })
      else skQvalueF fuel dec'

/-- Entry to the `qvalue` label: record `start` at the opening quote. -/
def skQvalue (dec : Decoder) : Bool × Decoder :=
  skQvalueF (dec.line.length + 1) { dec with start := dec.pos }

/-- The `ivalue` label of `ScanKeyval` (src/decode.go lines 379-394), after
`dec.start = dec.pos` has been recorded. -/
def skIvalueF : Nat → Decoder → Bool × Decoder
  | 0, dec => (false, dec)
  | fuel + 1, dec =>
    let c := peek dec
    if c = 61 || c = 34 then (false, unexpectedByte dec c)
    else if c ≤ 32 then (true, { dec with value := tokenOf dec dec.pos })
    else
      let dec' := { dec with pos := dec.pos + 1 }
      if dec'.line.length ≤ dec'.pos then (true, { dec' with value := tokenOf dec' dec'.pos })
      else skIvalueF fuel dec'

/-- Entry to the `ivalue` label: record `start` at the first value byte. -/
def skIvalue (dec : Decoder) : Bool × Decoder :=
  skIvalueF (dec.line.length + 1) { dec with start := dec.pos }

/-- The `equal` label of `ScanKeyval` (src/decode.go lines 366-377): step
past the `=`, then dispatch on the next byte. -/
def skEqual (dec : Decoder) : Bool × Decoder :=
  let dec' := { dec with pos := dec.pos + 1 }
  if dec'.line.length ≤ dec'.pos then (true, dec')
  else
    let c := peek dec'
    if c = 34 then skQvalue dec'
    else if c > 32 then skIvalue dec'
    else (true, dec')

/-- The `key` label of `ScanKeyval` (src/decode.go lines 346-364), after
`dec.start = dec.pos` has been recorded. -/
def skKeyF : Nat → Decoder → Bool × Decoder
  | 0, dec => (false, dec)
  | fuel + 1, dec =>
    let c := peek dec
    if c = 61 then skEqual { dec with key := tokenOf dec dec.pos }
    else if c = 34 then (false, unexpectedByte dec c)
    else if c ≤ 32 then (true, { dec with key := tokenOf dec dec.pos })
    else
      let dec' := { dec with pos := dec.pos + 1 }
      if dec'.line.length ≤ dec'.pos then (true, { dec' with key := tokenOf dec' dec'.pos })
      else skKeyF fuel dec'

/-- Entry to the `key` label: record `start` at the first key byte. -/
def skKey (dec : Decoder) : Bool × Decoder :=
  skKeyF (dec.line.length + 1) { dec with start := dec.pos }

/-- The `garbage` loop of `ScanKeyval` (src/decode.go lines 331-344). -/
def skGarbageF : Nat → Decoder → Bool × Decoder
  | 0, dec => (false, dec)
  | fuel + 1, dec =>
    let c := peek dec
    if c = 61 || c = 34 then (false, unexpectedByte dec c)
    else if c > 32 then skKey dec
    else
      let dec' := { dec with pos := dec.pos + 1 }
      if dec'.line.length ≤ dec'.pos then (false, dec')
      else skGarbageF fuel dec'

/-- The `ScanKeyval` method (src/decode.go lines 325-439): clear the token
slots, refuse to scan on a sticky error or at end of line, then run the
state machine from the `garbage` state. -/
def scanKeyval (dec : Decoder) : Bool × Decoder :=
  let dec := { dec with key := none, value := none }
  if dec.err.isSome || dec.line.length ≤ dec.pos then (false, dec)
  else skGarbageF (dec.line.length + 1) dec

/-! ### Client driver

`drainRecord`/`decodeAll` mirror the canonical client loop of the tests
(`for dec.ScanRecord() { for dec.ScanKeyval() { ... } }` followed by
`dec.Err()`); they are harness code, not part of the Go source.  One line
yields at most `line.length + 1` keyvals, and the input yields at most
`lines.length` records, so the fuel below never runs out. -/

/-- Collect the `(Key(), Value())` pairs of every successful `ScanKeyval`
call on the current record. -/
def drainRecord : Nat → Decoder → List (Option Bytes × Option Bytes) × Decoder
  | 0, dec => ([], dec)
  | fuel + 1, dec =>
    match scanKeyval dec with
    | (false, dec') => ([], dec')
    | (true, dec') =>
      let (rest, dec'') := drainRecord fuel dec'
      ((dec'.key, dec'.value) :: rest, dec'')

/-- Run `ScanRecord`/`ScanKeyval` to exhaustion. -/
def decodeLoop : Nat → Decoder → List (List (Option Bytes × Option Bytes)) × Decoder
  | 0, dec => ([], dec)
  | fuel + 1, dec =>
    match scanRecord dec with
    | (false, dec') => ([], dec')
    | (true, dec') =>
      let (kvs, dec'') := drainRecord (dec'.line.length + 1) dec'
      let (rest, dec3) := decodeLoop fuel dec''
      (kvs :: rest, dec3)

/-- Decode a whole input: the keyval pairs of every record, and the final
sticky error (`Err()`). -/
def decodeAll (ls : List Bytes) : List (List (Option Bytes × Option Bytes)) × Option SynErr :=
  let (recs, dec) := decodeLoop (ls.length + 1) (newDecoder ls)
  (recs, dec.err)

/-- Running the `ivalue` loop over a tail whose bytes all need no quoting
consumes the rest of the line and closes the value span at its end. -/
theorem skIvalueF_run (fuel : Nat) :
    ∀ dec : Decoder, dec.pos < dec.line.length →
      dec.line.length ≤ dec.pos + fuel →
      (∀ i, dec.pos ≤ i → i < dec.line.length →
        needsQuotedValueRune (dec.line.getD i 0) = false) →
      skIvalueF fuel dec =
        (true, { dec with pos := dec.line.length,
                          value := tokenOf dec dec.line.length }) := by
  induction fuel with
  | zero => intro dec h1 h2 _; omega
  | succ fuel ih =>
    intro dec h1 h2 hgood
    have hg := hgood dec.pos le_rfl h1
    simp only [needsQuotedValueRune, Bool.or_eq_false_iff, decide_eq_false_iff_not,
      beq_eq_false_iff_ne, ne_eq] at hg
    obtain ⟨⟨hle, h61⟩, h34⟩ := hg
    have hc1 : ¬(peek dec = 61 ∨ peek dec = 34) := by
      rw [peek]; tauto
    have hc2 : ¬(peek dec ≤ 32) := by rw [peek]; exact hle
    by_cases hend : dec.line.length ≤ dec.pos + 1
    · have hpe : dec.pos + 1 = dec.line.length := by omega
      simp only [skIvalueF, peek] at *
      rw [if_neg (by simpa using hc1), if_neg hc2, if_pos (by simpa using hend)]
      rw [hpe]
      rfl
    · simp only [skIvalueF, peek] at hc1 hc2 ⊢
      rw [if_neg (by simpa using hc1), if_neg hc2, if_neg (by simpa using hend)]
      rw [ih { dec with pos := dec.pos + 1 } (by simpa using Nat.lt_of_not_le hend)
            (by simp; omega)
            (by intro i hi1 hi2; exact hgood i (by simp at hi1; omega) (by simpa using hi2))]
      rfl


/-- One `garbage` iteration transfers to the `key` label on a plain byte. -/
theorem skGarbageF_toKey (fuel : Nat) (dec : Decoder) (hf : 0 < fuel)
    (h61 : ¬peek dec = 61) (h34 : ¬peek dec = 34) (hgt : 32 < peek dec) :
    skGarbageF fuel dec = skKey dec := by
  obtain ⟨f, rfl⟩ : ∃ f, fuel = f + 1 := ⟨fuel - 1, by omega⟩
  rw [skGarbageF]
  rw [if_neg (by simp [h61, h34]), if_pos hgt]

/-- The `key` loop closes the key span and transfers to `equal` on `=`. -/
theorem skKeyF_toEqual (fuel : Nat) (dec : Decoder) (hf : 0 < fuel)
    (h : peek dec = 61) :
    skKeyF fuel dec = skEqual { dec with key := tokenOf dec dec.pos } := by
  obtain ⟨f, rfl⟩ : ∃ f, fuel = f + 1 := ⟨fuel - 1, by omega⟩
  rw [skKeyF]
  rw [if_pos h]

/-- One `key` iteration advances over a plain key byte. -/
theorem skKeyF_step (fuel : Nat) (dec : Decoder) (hf : 0 < fuel)
    (h61 : ¬peek dec = 61) (h34 : ¬peek dec = 34) (hgt : 32 < peek dec)
    (hlt : dec.pos + 1 < dec.line.length) :
    skKeyF fuel dec = skKeyF (fuel - 1) { dec with pos := dec.pos + 1 } := by
  obtain ⟨f, rfl⟩ : ∃ f, fuel = f + 1 := ⟨fuel - 1, by omega⟩
  rw [skKeyF]
  rw [if_neg h61, if_neg h34, if_neg (by omega), if_neg (by simp; omega)]
  simp

/-- Scanning the line `k=` ++ v for a non-empty value v none of whose bytes
needs quoting yields the keyval (k, v) and consumes the whole line. -/
theorem scanKeyval_bareValue (v : Bytes) (hne : v ≠ [])
    (hq : v.any needsQuotedValueRune = false) :
    scanKeyval (lineDecoder ([107, 61] ++ v)) =
      (true, { lines := [], line := [107, 61] ++ v, key := some [107], value := some v,
               lineNum := 1, pos := ([107, 61] ++ v).length, start := 2, err := none }) := by
  obtain ⟨h, t, rfl⟩ : ∃ h t, v = h :: t := by
    cases v with
    | nil => exact absurd rfl hne
    | cons a b => exact ⟨a, b, rfl⟩
  have hgh : needsQuotedValueRune h = false := by
    rw [List.any_eq_false] at hq
    simpa using hq h (List.mem_cons_self h t)
  simp only [needsQuotedValueRune, Bool.or_eq_false_iff, decide_eq_false_iff_not,
    beq_eq_false_iff_ne, ne_eq] at hgh
  obtain ⟨⟨hh32, hh61⟩, hh34⟩ := hgh
  simp only [List.cons_append, List.nil_append]
  rw [scanKeyval]
  simp only [lineDecoder]
  rw [if_neg (by simp)]
  rw [skGarbageF_toKey _ _ (by simp) (by simp [peek]) (by simp [peek]) (by simp [peek])]
  rw [skKey]
  dsimp only
  rw [skKeyF_step _ _ (by simp) (by simp [peek]) (by simp [peek]) (by simp [peek])
        (by simp only [List.length_cons]; omega)]
  dsimp only
  rw [skKeyF_toEqual _ _ (by simp only [List.length_cons]; omega) (by simp [peek])]
  dsimp only
  rw [skEqual]
  dsimp only
  simp only [peek, List.getD_cons_succ, List.getD_cons_zero, List.length_cons]
  rw [if_neg (by omega), if_neg hh34, if_pos (by omega)]
  rw [skIvalue]
  dsimp only
  rw [show tokenOf { lines := [], line := 107 :: 61 :: h :: t, key := none, value := none, lineNum := 1, pos := 0 + 1, start := 0, err := none } (0 + 1) = some [107] from rfl]
  rw [skIvalueF_run]
  · simp only [tokenOf, List.length_cons, List.drop_succ_cons, List.drop_zero]
    rw [if_neg (by omega)]
    rw [List.take_of_length_le (by simp only [List.length_cons]; omega)]
  · simp only [List.length_cons]; omega
  · simp only [List.length_cons]; omega
  · intro i h2 hlt
    dsimp only at h2 hlt ⊢
    obtain ⟨j, rfl⟩ : ∃ j, i = j + 2 := ⟨i - 2, by omega⟩
    simp only [List.length_cons] at hlt
    rw [show (107 : Nat) :: 61 :: h :: t = [107, 61] ++ (h :: t) from rfl]
    rw [List.getD_append_right _ _ _ _ (by simp)]
    have hjlen : j + 2 - ([107, 61] : Bytes).length < (h :: t).length := by
      simp only [List.length_cons, List.length_nil]
      omega
    rw [List.getD_eq_getElem _ _ hjlen]
    rw [List.any_eq_false] at hq
    simpa using hq _ (List.getElem_mem _)


/-! ### Claim theorems -/

/-- C1 counterexample: encoding the 3-letter string `nil` produces the
unquoted output `nil`, not the quoted output `"nil"` the claim requires
(the null-value sentinel of this code is `null`, not `nil`). -/
theorem C1_counterexample :
    writeStringValue [110, 105, 108] true = (none, [110, 105, 108]) ∧
      (writeStringValue [110, 105, 108] true).2 ≠ [34, 110, 105, 108, 34] := by
  decide

/-- C1 (amended): a string value is wrapped in quotes iff it contains a byte
that is `=`, `"` or ≤ space (space or a control character), or is exactly the
text `null`; for every string containing none of those and different from
`null` the emitted value is the string itself, and (when non-empty) decoding
the encoded keyval `k=` ++ v yields exactly the value v.  Encoding the
3-letter string `nil` therefore produces the unquoted output `nil`. -/
theorem C1_theorem (v : Bytes) :
    (((writeStringValue v true).2.head? = some 34) ↔
      (v = nilbytes ∨ v.any needsQuotedValueRune = true))
    ∧ (v.any needsQuotedValueRune = false → v ≠ nilbytes →
        (writeStringValue v true).2 = v)
    ∧ (v.any needsQuotedValueRune = false → v ≠ nilbytes → v ≠ [] →
        scanKeyval (lineDecoder ([107, 61] ++ v)) =
          (true, { lines := [], line := [107, 61] ++ v, key := some [107], value := some v,
                   lineNum := 1, pos := ([107, 61] ++ v).length, start := 2, err := none })) := by
  refine ⟨?_, ?_, ?_⟩
  · by_cases hnull : v = nilbytes
    · subst hnull
      simp [writeStringValue, nilbytes]
    · by_cases hqv : v.any needsQuotedValueRune = true
      · rw [writeStringValue, if_neg (by simp [hnull]), if_pos hqv]
        simp [writeQuotedBytes, hqv]
      · rw [writeStringValue, if_neg (by simp [hnull]), if_neg hqv]
        constructor
        · intro hhead
          exfalso
          rcases v with _ | ⟨a, t⟩
          · simp at hhead
          · simp only [List.head?_cons, Option.some.injEq] at hhead
            subst hhead
            exact hqv (by simp [List.any_cons, needsQuotedValueRune])
        · rintro (h1 | h2)
          · exact absurd h1 hnull
          · exact absurd h2 hqv
  · intro hq hnull
    rw [writeStringValue, if_neg (by simp [hnull]), if_neg (by simp [hq])]
  · intro hq hnull hne
    exact scanKeyval_bareValue v hne hq

/-- C1 witness: the one-byte value `v` needs no quoting, is neither `null`
nor empty, and round-trips through `k=v`. -/
theorem C1_witness :
    ([118] : Bytes).any needsQuotedValueRune = false ∧
      ([118] : Bytes) ≠ nilbytes ∧ ([118] : Bytes) ≠ [] ∧
      scanKeyval (lineDecoder [107, 61, 118]) =
        (true, { lines := [], line := [107, 61, 118], key := some [107], value := some [118],
                 lineNum := 1, pos := 3, start := 2, err := none }) :=
  ⟨by decide, by decide, by decide,
    (C1_theorem [118]).2.2 (by decide) (by decide) (by decide)⟩

/-- C2 counterexample: a nil value writes the four-byte token `null`, not the
three-byte token `nil` the claim requires. -/
theorem C2_counterexample :
    writeValue .vnil = (none, [110, 117, 108, 108]) ∧
      (writeValue .vnil).2 ≠ [110, 105, 108] := by
  decide

/-- C2 (amended): a null/absent value — a nil interface, a nil pointer, a
TextMarshaler whose safe invocation yields no bytes, or a Stringer whose safe
invocation reports a nil receiver — writes the literal token `null`
(`nilbytes`), not `nil`. -/
theorem C2_theorem :
    writeValue .vnil = (none, nilbytes) ∧
      writeValue .vptrNil = (none, nilbytes) ∧
      writeValue (.vmarshaler (.ok none)) = (none, nilbytes) ∧
      writeValue (.vstringer nilbytes false) = (none, nilbytes) := by
  decide

/-- C3 counterexample: the spec escapes a byte sequence with invalid
encoding rather than passing it through, so the lone byte 0xFF escapes to
the replacement-character escape and unescapes to the replacement
character's UTF-8 bytes, not to 0xFF — the round-trip fails on invalid
encoding sequences. -/
theorem C3_counterexample :
    unquoteBytes (writeQuotedBytes [255]) = some [239, 191, 189] ∧
      unquoteBytes (writeQuotedBytes [255]) ≠ some [255] := by
  decide

/-- C3 (amended): unescaping the escaped form returns exactly the original
byte sequence for every byte sequence that forms valid text (valid UTF-8),
control characters included; a byte sequence with invalid encoding is
escaped rather than passed through, so it re-decodes to valid text but not
byte-identically.  `writeQuotedBytes` and `unquoteBytes` are modelled from
the spec because jsonstring.go is not under src/. -/
theorem C3_theorem (v : Bytes) (hv : validUtf8 v = true) :
    unquoteBytes (writeQuotedBytes v) = some v := by
  rw [writeQuotedBytes, unquoteBytes]
  have hlast : ((34 : Nat) :: escBody v ++ [34]).getLast? = some 34 := by
    rw [show (34 : Nat) :: escBody v ++ [34] = ((34 : Nat) :: escBody v) ++ [34] from by simp]
    exact List.getLast?_concat _
  rw [if_pos ⟨by simp, by simp, hlast⟩]
  have hint : (((34 : Nat) :: escBody v ++ [34]).drop 1).dropLast = escBody v := by
    simp
  rw [hint, unescapeBody, escBody]
  rw [show (escBodyF v.length v).length = (escBodyF v.length v).length + 0 from by omega]
  exact unescapeBodyF_escBodyF v.length v 0 le_rfl hv

/-- C3 witness: a value containing a newline, a quote, a backslash, a NUL
byte and a two-byte UTF-8 character is valid text and round-trips. -/
theorem C3_witness :
    validUtf8 [10, 34, 92, 0, 206, 187] = true ∧
      unquoteBytes (writeQuotedBytes [10, 34, 92, 0, 206, 187]) =
        some [10, 34, 92, 0, 206, 187] :=
  ⟨by decide, C3_theorem [10, 34, 92, 0, 206, 187] (by decide)⟩

/-- C4: EncodeKeyval fails with InvalidKey for every key whose textual form
is empty or contains a space, `=` or `"` (whatever dispatch branch produced
that text), fails with NilKey for a nil interface key, a nil pointer key, or
a renderer invoked on a nil holder, and writes no key bytes in any of those
cases — only the separator space already emitted beforehand. -/
theorem C4_theorem (sep : Bool) (v : GoValue) (s : Bytes) :
    ((s = [] ∨ 32 ∈ s ∨ 61 ∈ s ∨ 34 ∈ s) →
      encodeKeyval sep (.kstr s) v =
          (some .invalidKey, (if sep then [32] else []), true)
        ∧ encodeKeyval sep (.kmarshaler (.ok (some s))) v =
            (some .invalidKey, (if sep then [32] else []), true)
        ∧ encodeKeyval sep (.kstringer s true) v =
            (some .invalidKey, (if sep then [32] else []), true)
        ∧ encodeKeyval sep (.kother s) v =
            (some .invalidKey, (if sep then [32] else []), true))
    ∧ encodeKeyval sep .knil v = (some .nilKey, (if sep then [32] else []), true)
    ∧ encodeKeyval sep .kptrNil v = (some .nilKey, (if sep then [32] else []), true)
    ∧ encodeKeyval sep (.kmarshaler (.ok none)) v =
        (some .nilKey, (if sep then [32] else []), true)
    ∧ encodeKeyval sep (.kstringer s false) v =
        (some .nilKey, (if sep then [32] else []), true) := by
  have hstr : (s = [] ∨ 32 ∈ s ∨ 61 ∈ s ∨ 34 ∈ s) →
      writeStringKey s = (some EncErr.invalidKey, []) := by
    rintro (h | h | h | h)
    · subst h; decide
    all_goals
      rw [writeStringKey,
        if_pos (by
          refine Bool.or_eq_true _ _ |>.mpr (Or.inr ?_)
          exact List.any_eq_true.mpr ⟨_, h, rfl⟩)]
  have hbytes : writeBytesKey s = writeStringKey s := rfl
  have hkey : ∀ k : GoKey, writeKey k = (some EncErr.invalidKey, []) →
      encodeKeyval sep k v = (some .invalidKey, (if sep then [32] else []), true) := by
    intro k hk
    simp [encodeKeyval, hk]
  have hnil : ∀ k : GoKey, writeKey k = (some EncErr.nilKey, []) →
      encodeKeyval sep k v = (some .nilKey, (if sep then [32] else []), true) := by
    intro k hk
    simp [encodeKeyval, hk]
  refine ⟨fun hs => ⟨?_, ?_, ?_, ?_⟩, ?_, ?_, ?_, ?_⟩
  · exact hkey _ (by rw [writeKey]; exact hstr hs)
  · exact hkey _ (by rw [writeKey, hbytes]; exact hstr hs)
  · exact hkey _ (by rw [writeKey, if_pos rfl]; exact hstr hs)
  · exact hkey _ (by rw [writeKey]; exact hstr hs)
  · exact hnil _ (by rw [writeKey])
  · exact hnil _ (by rw [writeKey])
  · exact hnil _ (by rw [writeKey])
  · exact hnil _ (by rw [writeKey, if_neg (by simp)])

/-- C4 witness: the one-byte key `=` is rejected with InvalidKey and no key
bytes are written. -/
theorem C4_witness :
    (([61] : Bytes) = [] ∨ 32 ∈ ([61] : Bytes) ∨ 61 ∈ ([61] : Bytes) ∨ 34 ∈ ([61] : Bytes)) ∧
      encodeKeyval false (.kstr [61]) .vnil = (some .invalidKey, [], true) :=
  ⟨by decide, ((C4_theorem false .vnil [61]).1 (by decide)).1⟩

/-- C5: once the sticky error is set, ScanKeyval returns false, clears both
token slots and changes nothing else, so no key and no value are produced
until the decoder state is altered by another method. -/
theorem C5_theorem (dec : Decoder) (e : SynErr) (h : dec.err = some e) :
    scanKeyval dec = (false, { dec with key := none, value := none }) := by
  rw [scanKeyval]
  dsimp only
  rw [if_pos (by simp [h])]

/-- C5 witness: a decoder carrying a sticky error yields no key and no value. -/
theorem C5_witness :
    scanKeyval { lines := [], line := [107], key := some [107], value := some [49],
                 lineNum := 1, pos := 0, start := 0,
                 err := some { msg := "unterminated quoted value", line := 1, pos := 1 } } =
      (false, { lines := [], line := [107], key := none, value := none,
                lineNum := 1, pos := 0, start := 0,
                err := some { msg := "unterminated quoted value", line := 1, pos := 1 } }) :=
  C5_theorem _ { msg := "unterminated quoted value", line := 1, pos := 1 } rfl

/-- C6 counterexample: after a lexical syntax error on line 1, ScanRecord
returns false even though a further line of input is available. -/
theorem C6_counterexample :
    (scanKeyval (scanRecord (newDecoder [[61, 120], [97, 61, 49]])).2).2.lines ≠ [] ∧
      (scanRecord (scanKeyval (scanRecord (newDecoder [[61, 120], [97, 61, 49]])).2).2).1
        = false := by
  decide

/-- C6 (amended): ScanRecord returns true iff no sticky error of any kind is
set — lexical syntax errors from earlier lines included — and a further line
of input is available. -/
theorem C6_theorem (dec : Decoder) :
    (scanRecord dec).1 = true ↔ (dec.err = none ∧ dec.lines ≠ []) := by
  rw [scanRecord]
  cases herr : dec.err with
  | some e => simp [herr]
  | none =>
    cases hl : dec.lines with
    | nil => simp [herr, hl]
    | cons l rest => simp [herr, hl]

/-- C7: decoding the input `a=1\n=bar` fails with a syntax error at line 2,
column 1, whose message reports the unexpected `=`. -/
theorem C7_theorem :
    decodeAll [[97, 61, 49], [61, 98, 97, 114]] =
      ([[(some [97], some [49])], []],
        some { msg := "unexpected " ++ quoteChar 61, line := 2, pos := 1 }) ∧
      "unexpected " ++ quoteChar 61 = "unexpected \'=\'" := by
  constructor
  · rfl
  · rfl

/-- C8: decoding the single line `y="f\n"y=g` (no space after the closing
quote) yields exactly the keyvals (y, f LF) and (y, g), in that order. -/
theorem C8_theorem :
    decodeAll [[121, 61, 34, 102, 92, 110, 34, 121, 61, 103]] =
      ([[(some [121], some [102, 10]), (some [121], some [103])]], none) := by
  decide

/-- C9 counterexample: when the encoder is past the first pair of a record
(`needSep` set), EncodeKeyval on a nil key and nil value writes the single
separator space before failing, so it does produce output. -/
theorem C9_counterexample :
    encodeKeyval true .knil .vnil = (some .nilKey, [32], true) ∧
      (encodeKeyval true .knil .vnil).2.1 ≠ [] := by
  decide

/-- C9 (amended): EncodeKeyval on a nil key and nil value always fails with
NilKey and writes no key or value bytes; at the start of a record it writes
nothing at all, while after an earlier pair it writes exactly the one
separator space before failing. -/
theorem C9_theorem (sep : Bool) :
    encodeKeyval sep .knil .vnil = (some .nilKey, (if sep then [32] else []), true) := by
  cases sep <;> decide

/-- C10: the empty quoted value `k=""` decodes to ScanKeyval true with key
`k` and a nil value — indistinguishable from the absent value of the bare
`k=`. -/
theorem C10_theorem :
    decodeAll [[107, 61, 34, 34]] = ([[(some [107], none)]], none) ∧
      decodeAll [[107, 61]] = ([[(some [107], none)]], none) :=
  ⟨by decide, by decide⟩


end Logfmt

namespace Logfmt


/-! ### Claim theorems -/

end Logfmt
